import Mathlib

/-!
# MoGallery backend: access control, view-once sharing and notifications

A shallow embedding of the sharing/notification core of the MoGallery
backend (Express + Mongoose), together with theorems checking the
natural-language specification against it.

Embedded source files:
* `src/models/Media.js`   — media schema instance methods
  (`canView`, `canEdit`, `canDelete`, `markAsViewed`, `addViewOnceUser`,
  `hideFromUser`).
* `src/models/Folder.js`  — folder schema instance methods
  (`hasAccess`, `canViewFolder`, `canEdit`, `canUpload`, `canDelete`,
  `canShare`, `markFolderAsViewed`, `addViewOnceUser`).
* `src/models/ViewOnceNotification.js` — `getActiveNotifications`.
* the notification model (`Notification` schema) and the folders /
  notifications routers (the `/:id/share` duplicate-share check, the
  `PUT /:id/viewed` handler, the `GET /shared-media` reconciliation loop).
* `src/routes/media.js`   — `computeStatus` and `POST /:id/share-direct`.

Mongoose documents are modelled as plain structures; ObjectIds are `Nat`,
dates are `Int` (seconds); a `save()` is modelled by returning the updated
value, and the Mongo collections are lists inside an explicit `Store`.
-/

namespace MoGallery

abbrev UserId := Nat
abbrev Time := Int

/-- One element of a `viewOnce.sharedWith` array (both the media and the
folder schema use the same shape): `{ user, viewed, viewedAt }`. -/
structure ViewOnceEntry where
  user : UserId
  viewed : Bool
  viewedAt : Option Time
  deriving Repr, DecidableEq

/-- The `viewOnce` subdocument: `{ enabled, sharedWith }`. -/
structure ViewOnceSection where
  enabled : Bool
  sharedWith : List ViewOnceEntry
  deriving Repr, DecidableEq

/-- A media document (`src/models/Media.js`): the fields the sharing core
reads.  `isHiddenFor` is the per-user suppression list. -/
structure Media where
  id : Nat
  owner : UserId
  folder : Nat
  viewOnce : ViewOnceSection
  isHiddenFor : List UserId
  deriving Repr, DecidableEq

/-- `mediaSchema.methods.canView` (Media.js:123-140): hidden check first,
then — only when view-once is enabled — the shared-with entry must exist
and be unviewed; otherwise the method falls through to `true`. -/
def Media.canView (m : Media) (userId : UserId) : Bool :=
  if m.isHiddenFor.any (fun i => i == userId) then false
  else if m.viewOnce.enabled then
    match m.viewOnce.sharedWith.find? (fun e => e.user == userId) with
    | some e => !e.viewed
    | none => false
  else true

/-- `mediaSchema.methods.canEdit` (Media.js:142-144): owner only. -/
def Media.canEdit (m : Media) (userId : UserId) : Bool :=
  m.owner == userId

/-- `mediaSchema.methods.canDelete` (Media.js:146-148): owner only. -/
def Media.canDelete (m : Media) (userId : UserId) : Bool :=
  m.owner == userId

/-- Replace the first element satisfying `p` (the JS code mutates the
entry returned by `Array.prototype.find`). -/
def updateFirst (p : α → Bool) (f : α → α) : List α → List α
  | [] => []
  | x :: xs => if p x then f x :: xs else x :: updateFirst p f xs

/-- `mediaSchema.methods.markAsViewed` (Media.js:150-162), the view-once
consumption step.  The boolean is `true` exactly when the method took the
mutating branch (`this.save()`), i.e. when the grant was consumed; in the
other branches the method resolves with the unchanged document. -/
def Media.markAsViewed (m : Media) (userId : UserId) (now : Time) :
    Media × Bool :=
  if m.viewOnce.enabled then
    match m.viewOnce.sharedWith.find? (fun e => e.user == userId) with
    | some e =>
      if e.viewed then (m, false)
      else
        ({ m with viewOnce :=
            { m.viewOnce with sharedWith :=
                (updateFirst (fun x => x.user == userId)
                  (fun x => { x with viewed := true, viewedAt := some now })
                  m.viewOnce.sharedWith) } }, true)
    | none => (m, false)
  else (m, false)

/-- `mediaSchema.methods.addViewOnceUser` (Media.js:164-174): push a fresh
entry unless one for this user already exists. -/
def Media.addViewOnceUser (m : Media) (userId : UserId) : Media :=
  if m.viewOnce.sharedWith.any (fun e => e.user == userId) then m
  else
    { m with viewOnce :=
        { m.viewOnce with sharedWith :=
            m.viewOnce.sharedWith ++ [⟨userId, false, none⟩] } }

/-- `mediaSchema.methods.hideFromUser` (Media.js:186-193): add to
`isHiddenFor` unless already present. -/
def Media.hideFromUser (m : Media) (userId : UserId) : Media :=
  if m.isHiddenFor.any (fun i => i == userId) then m
  else { m with isHiddenFor := m.isHiddenFor ++ [userId] }

/-- A persistent folder grant: one element of `folder.sharedWith`,
`{ user, permission }` with `permission ∈ {view, upload}`. -/
inductive Permission where
  | view
  | upload
  deriving Repr, DecidableEq

structure PersistentGrant where
  user : UserId
  permission : Permission
  deriving Repr, DecidableEq

/-- A folder document (`src/models/Folder.js`): the fields the sharing
core reads. -/
structure Folder where
  id : Nat
  owner : UserId
  sharedWith : List PersistentGrant
  viewOnce : ViewOnceSection
  deriving Repr, DecidableEq

/-- `folderSchema.methods.hasAccess` (Folder.js:45-70): owner, else a
persistent share, else — when view-once is enabled — an unviewed entry. -/
def Folder.hasAccess (f : Folder) (userId : UserId) : Bool :=
  if f.owner == userId then true
  else if f.sharedWith.any (fun s => s.user == userId) then true
  else if f.viewOnce.enabled then
    match f.viewOnce.sharedWith.find? (fun e => e.user == userId) with
    | some e => !e.viewed
    | none => false
  else false

/-- `folderSchema.methods.canViewFolder` (Folder.js:102-127): identical
logic to `hasAccess`. -/
def Folder.canViewFolder (f : Folder) (userId : UserId) : Bool :=
  if f.owner == userId then true
  else if f.sharedWith.any (fun s => s.user == userId) then true
  else if f.viewOnce.enabled then
    match f.viewOnce.sharedWith.find? (fun e => e.user == userId) with
    | some e => !e.viewed
    | none => false
  else false

/-- `folderSchema.methods.canEdit` (Folder.js:78-80). -/
def Folder.canEdit (f : Folder) (userId : UserId) : Bool :=
  f.owner == userId

/-- `folderSchema.methods.canUpload` (Folder.js:83-89): owner, or a share
with the `upload` permission. -/
def Folder.canUpload (f : Folder) (userId : UserId) : Bool :=
  if f.owner == userId then true
  else
    match f.sharedWith.find? (fun s => s.user == userId) with
    | some s => s.permission == Permission.upload
    | none => false

/-- `folderSchema.methods.canDelete` (Folder.js:92-94). -/
def Folder.canDelete (f : Folder) (userId : UserId) : Bool :=
  f.owner == userId

/-- `folderSchema.methods.canShare` (Folder.js:97-99). -/
def Folder.canShare (f : Folder) (userId : UserId) : Bool :=
  f.owner == userId

/-- `folderSchema.methods.markFolderAsViewed` (Folder.js:129-141): same
consumption step as the media one, but for folders. -/
def Folder.markFolderAsViewed (f : Folder) (userId : UserId) (now : Time) :
    Folder × Bool :=
  if f.viewOnce.enabled then
    match f.viewOnce.sharedWith.find? (fun e => e.user == userId) with
    | some e =>
      if e.viewed then (f, false)
      else
        ({ f with viewOnce :=
            { f.viewOnce with sharedWith :=
                (updateFirst (fun x => x.user == userId)
                  (fun x => { x with viewed := true, viewedAt := some now })
                  f.viewOnce.sharedWith) } }, true)
    | none => (f, false)
  else (f, false)

/-- `folderSchema.methods.addViewOnceUser` (Folder.js:143-156). -/
def Folder.addViewOnceUser (f : Folder) (userId : UserId) : Folder :=
  if f.viewOnce.sharedWith.any (fun e => e.user == userId) then f
  else
    { f with viewOnce :=
        { f.viewOnce with sharedWith :=
            f.viewOnce.sharedWith ++ [⟨userId, false, none⟩] } }

/-- The duplicate-checked grant write of `POST /folders/:id/share`
(folders router, lines 334-414): reject when a share for the grantee
already exists, reject sharing with the caller themself, otherwise push
`{user, permission}`.  The route runs behind `checkFolderSharePermission`,
so the caller is the folder's owner.  The boolean is `true` when the grant
was written (the two rejections answer 400 without touching the folder). -/
def Folder.shareWithUser (f : Folder) (granteeId : UserId)
    (permission : Permission) (callerId : UserId) : Folder × Bool :=
  if f.sharedWith.any (fun s => s.user == granteeId) then (f, false)
  else if granteeId == callerId then (f, false)
  else ({ f with sharedWith := f.sharedWith ++ [⟨granteeId, permission⟩] },
        true)

/-- Derived scheduled-operation status, `computeStatus` in
`src/routes/media.js:818-823`. -/
inductive OpStatus where
  | expired
  | pending
  | executed
  deriving Repr, DecidableEq

/-- `computeStatus(scheduledFor, expiresAt)` with the route's `new Date()`
passed explicitly: expired when `expiresAt` is set and past, else pending
when `scheduledFor` is set and future, else executed.  A JS `null`
timestamp is falsy, hence `Option.any`. -/
def computeStatus (scheduledFor expiresAt : Option Time) (now : Time) :
    OpStatus :=
  if expiresAt.any (fun e => decide (e < now)) then OpStatus.expired
  else if scheduledFor.any (fun s => decide (s > now)) then OpStatus.pending
  else OpStatus.executed

/-! ## The notification store

The `Notification` schema (regular notifications), the
`ViewOnceNotification` schema, and the user collection, gathered into one
`Store` so the routes that read and write several collections can be
modelled as store transformers.  `nextId` stands in for ObjectId
generation. -/

inductive NotifType where
  | media_shared
  | media_view_once
  | folder_shared
  | media_scheduled
  deriving Repr, DecidableEq

/-- A `Notification` document (notification model schema): `media` and
`folder` are optional ObjectId references. -/
structure StoredNotification where
  id : Nat
  recipient : UserId
  sender : UserId
  ntype : NotifType
  media : Option Nat
  folder : Option Nat
  viewOnce : Bool
  scheduledFor : Option Time
  expiresAt : Option Time
  isRead : Bool
  isViewed : Bool
  viewedAt : Option Time
  deriving Repr, DecidableEq

/-- A `ViewOnceNotification` document
(`src/models/ViewOnceNotification.js`). -/
structure VONotif where
  id : Nat
  recipient : UserId
  sender : UserId
  media : Nat
  folder : Nat
  isViewed : Bool
  viewedAt : Option Time
  expiresAt : Option Time
  isActive : Bool
  viewCount : Nat
  deriving Repr, DecidableEq

/-- The slice of a `User` document the sharing core reads. -/
structure UserRec where
  id : Nat
  email : String
  deriving Repr, DecidableEq

structure Store where
  users : List UserRec
  media : List Media
  folders : List Folder
  notifs : List StoredNotification
  vons : List VONotif
  nextId : Nat
  deriving Repr, DecidableEq

def findMedia (ms : List Media) (mid : Nat) : Option Media :=
  ms.find? (fun m => m.id == mid)

def findFolder (fs : List Folder) (fid : Nat) : Option Folder :=
  fs.find? (fun f => f.id == fid)

def findUserByEmail (users : List UserRec) (e : String) : Option UserRec :=
  users.find? (fun u => u.email == e)

def findUserById (users : List UserRec) (uid : Nat) : Option UserRec :=
  users.find? (fun u => u.id == uid)

/-! ## NotificationReconciler — `GET /notifications/shared-media` -/

/-- The candidate query of the shared-media listing: notifications for
the recipient of type `media_shared` or `media_view_once` that have not
been viewed.  (The route additionally sorts by `createdAt` descending and
applies a `limit`; both only select and order candidates and are
irrelevant to the per-candidate validation below.) -/
def sharedMediaCandidates (st : Store) (userId : UserId) :
    List StoredNotification :=
  st.notifs.filter (fun n =>
    n.recipient == userId &&
    (n.ntype == NotifType.media_shared ||
      n.ntype == NotifType.media_view_once) &&
    !n.isViewed)

/-- One iteration of the reconciliation loop (notifications router,
`GET /shared-media`): returns `true` when the notification is kept.

The route reads `notification.media` / `notification.folder` *after*
`.populate(...)`: Mongoose replaces a reference whose target document no
longer exists by `null`, so the `if (notification.media &&
notification.folder)` guard only enters the validation block when **both
referenced documents exist** — a notification with a dangling reference
skips validation and is kept.  Inside the block the route re-fetches both
documents by id (`findById`), which therefore succeeds again, making its
`if (!media || !folder)` deletion branch unreachable; the remaining
checks are the folder-access check (skipped for view-once notifications)
and the media `canView` check. -/
def sharedMediaNotifValid (st : Store) (userId : UserId)
    (n : StoredNotification) : Bool :=
  match n.media.bind (findMedia st.media),
        n.folder.bind (findFolder st.folders) with
  | some m, some f =>
      let isVO :=
        n.ntype == NotifType.media_view_once || n.viewOnce
      if !isVO && !(f.hasAccess userId) then false
      else if !(m.canView userId) then false
      else true
  | _, _ => true

/-- The reconciliation loop over the candidate list: kept notifications
in order, plus the ids deleted from storage
(`Notification.findByIdAndDelete`). -/
def reconcileNotifs (st : Store) (userId : UserId) :
    List StoredNotification → List StoredNotification × List Nat
  | [] => ([], [])
  | n :: rest =>
    let ok := sharedMediaNotifValid st userId n
    let (vs, ds) := reconcileNotifs st userId rest
    if ok then (n :: vs, ds) else (vs, n.id :: ds)

/-- `GET /notifications/shared-media` as a store transformer: the list
returned to the recipient, and the store after the side-effect deletions. -/
def listSharedMedia (st : Store) (userId : UserId) :
    List StoredNotification × Store :=
  let cands := sharedMediaCandidates st userId
  let vd := reconcileNotifs st userId cands
  (vd.1,
   { st with notifs := st.notifs.filter (fun n => !(vd.2.contains n.id)) })

/-! ## `PUT /notifications/:id/viewed` -/

def findNotifFor (st : Store) (nid : Nat) (uid : UserId) :
    Option StoredNotification :=
  st.notifs.find? (fun n => n.id == nid && n.recipient == uid)

def Store.updateNotif (st : Store) (n2 : StoredNotification) : Store :=
  { st with notifs := st.notifs.map (fun n => if n.id == n2.id then n2 else n) }

/-- `Media.findByIdAndUpdate(mid, { $addToSet: { isHiddenFor: uid } })`. -/
def Store.hideMediaFrom (st : Store) (mid : Nat) (uid : UserId) : Store :=
  { st with media :=
      st.media.map (fun m => if m.id == mid then m.hideFromUser uid else m) }

/-- The `PUT /notifications/:id/viewed` handler: find the recipient's
notification (404 → `none`), set `isViewed`/`viewedAt` on it
(`notification.markAsViewed()`), and — when `notification.viewOnce` and
the populated `notification.media` is non-null — add the recipient to the
media's `isHiddenFor`.  It never touches the media's
`viewOnce.sharedWith` entries. -/
def markNotificationViewedRoute (st : Store) (nid : Nat) (uid : UserId)
    (now : Time) : Option Store :=
  match findNotifFor st nid uid with
  | none => none
  | some n =>
    let st1 := st.updateNotif { n with isViewed := true, viewedAt := some now }
    if n.viewOnce then
      match n.media.bind (findMedia st.media) with
      | some m => some (st1.hideMediaFrom m.id uid)
      | none => some st1
    else some st1

/-! ## Professional notification listing -/

/-- `ViewOnceNotification.getActiveNotifications(userId, limit)`
(ViewOnceNotification.js:136-151): active, unviewed, and `expiresAt`
absent or strictly in the future.  (Sorting by `createdAt` descending is
presentation order and is omitted.) -/
def getActiveNotifications (vons : List VONotif) (userId : Nat)
    (limit : Nat) (now : Time) : List VONotif :=
  (vons.filter (fun n =>
    n.recipient == userId && n.isActive && !n.isViewed &&
    (match n.expiresAt with
     | none => true
     | some e => decide (e > now)))).take limit

/-- The options object accepted by
`NotificationService.getProfessionalNotifications`. -/
structure ProfOptions where
  limit : Nat
  includeViewed : Bool
  includeExpired : Bool
  deriving Repr, DecidableEq

/-- The view-once portion of
`NotificationService.getProfessionalNotifications(userId, options)`: the
service destructures `includeViewed` and `includeExpired` from `options`
but never uses them; the view-once list is always
`ViewOnceNotification.getActiveNotifications(userId, limit)`. -/
def professionalViewOncePortion (vons : List VONotif) (userId : Nat)
    (opts : ProfOptions) (now : Time) : List VONotif :=
  getActiveNotifications vons userId opts.limit now

/-! ## `POST /media/:id/share-direct` -/

/-- A per-recipient entry of the `results` array of the share-direct
endpoint. -/
structure ShareResult where
  email : String
  success : Bool
  notificationId : Option Nat
  error : Option String
  deriving Repr, DecidableEq

/-- The route's email-format regex `^[^\s@]+@[^\s@]+\.[^\s@]+$`: exactly
one `@` (the char class excludes it on both sides), non-empty
whitespace-free local and domain parts, and a dot inside the domain with
at least one character on each side.  (JS `\s` is approximated by
`Char.isWhitespace`.) -/
def validEmailFormat (s : String) : Bool :=
  match s.data.splitOn '@' with
  | [l, d] =>
    !l.isEmpty && l.all (fun c => !c.isWhitespace) &&
    !d.isEmpty && d.all (fun c => !c.isWhitespace) &&
    ((d.drop 1).dropLast.contains '.')
  | _ => false

/-- ASCII lowercasing, modelling JS `String.prototype.toLowerCase` on
the ASCII range the route deals with. -/
def lowerChar (c : Char) : Char :=
  if 65 ≤ c.toNat && c.toNat ≤ 90 then Char.ofNat (c.toNat + 32) else c

def toLowerStr (s : String) : String := ⟨s.data.map lowerChar⟩

/-- The recipient-resolution loop of share-direct: each email is
lowercased and looked up; unknown emails push a
`{email, success:false, error:'User not found'}` result, known ones are
collected for the share loop. -/
def resolveRecipients (users : List UserRec) :
    List String → List ShareResult × List UserRec
  | [] => ([], [])
  | rawEmail :: rest =>
    let email := toLowerStr rawEmail
    let rsus := resolveRecipients users rest
    match findUserByEmail users email with
    | none => (⟨email, false, none, some "User not found"⟩ :: rsus.1, rsus.2)
    | some u => (rsus.1, u :: rsus.2)

/-- `Notification.createMediaShareNotification` (notification model):
creates a `media_view_once` or `media_shared` document carrying the
optional schedule timestamps; returns the new id. -/
def createMediaShareNotification (st : Store)
    (recipientId senderId mediaId folderId : Nat) (viewOnce : Bool)
    (scheduledFor expiresAt : Option Time) : Nat × Store :=
  let nid := st.nextId
  let n : StoredNotification :=
    ⟨nid, recipientId, senderId,
     if viewOnce then NotifType.media_view_once else NotifType.media_shared,
     some mediaId, some folderId, viewOnce, scheduledFor, expiresAt,
     false, false, none⟩
  (nid, { st with notifs := st.notifs ++ [n], nextId := st.nextId + 1 })

/-- `NotificationService.createViewOnceNotification`: throws (`none`)
when the media, folder or sender cannot be found; otherwise creates a
`ViewOnceNotification` expiring `expiresInHours` hours from now, plus a
regular `media_view_once` notification, and returns both ids. -/
def createViewOnceNotificationService (st : Store)
    (recipientId senderId mediaId folderId : Nat) (expiresInHours : Nat)
    (now : Time) : Option (Nat × Nat × Store) :=
  match findMedia st.media mediaId with
  | none => none
  | some _ =>
    match findFolder st.folders folderId with
    | none => none
    | some _ =>
      match findUserById st.users senderId with
      | none => none
      | some _ =>
        let expiresAt := now + (expiresInHours : Int) * 3600
        let vonId := st.nextId
        let von : VONotif :=
          ⟨vonId, recipientId, senderId, mediaId, folderId,
           false, none, some expiresAt, true, 0⟩
        let st1 :=
          { st with vons := st.vons ++ [von], nextId := st.nextId + 1 }
        let r :=
          createMediaShareNotification st1 recipientId senderId mediaId
            folderId true none (some expiresAt)
        some (vonId, r.1, r.2)

/-- The per-user body of the share-direct loop (each user inside its own
`try`/`catch`, so a failure only produces that user's failure result).
The folder comes from the populated `media.folder`; when that reference
dangles, reading `media.folder._id` throws and is caught per user.

In the view-once branch the route stores
`notificationId: notification._id` where `notification` is the *service
result object* `{viewOnceNotification, regularNotification,
mediaPreview}` — a plain object whose `._id` is `undefined` — hence
`none` even on success. -/
def shareOneUser (st : Store) (m : Media) (senderId : Nat) (vo : Bool)
    (expiresInHours : Nat) (now : Time) (u : UserRec) :
    ShareResult × Store :=
  match findFolder st.folders m.folder with
  | none => (⟨u.email, false, none, some "Cannot read folder"⟩, st)
  | some _ =>
    if vo then
      match createViewOnceNotificationService st u.id senderId m.id
          m.folder expiresInHours now with
      | some r => (⟨u.email, true, none, none⟩, r.2.2)
      | none => (⟨u.email, false, none, some "share failed"⟩, st)
    else
      let r :=
        createMediaShareNotification st u.id senderId m.id m.folder false
          none none
      (⟨u.email, true, some r.1, none⟩, r.2)

def shareUsersLoop (m : Media) (senderId : Nat) (vo : Bool)
    (expiresInHours : Nat) (now : Time) :
    Store → List UserRec → List ShareResult × Store
  | st, [] => ([], st)
  | st, u :: rest =>
    let r1 := shareOneUser st m senderId vo expiresInHours now u
    let r2 := shareUsersLoop m senderId vo expiresInHours now r1.2 rest
    (r1.1 :: r2.1, r2.2)

/-- `POST /media/:id/share-direct` (media router, lines 1093-1219):
`none` models the whole-request 400/403/404 answers (empty or malformed
email list, unknown media, non-owner sender); otherwise the per-recipient
results (resolution failures first, in input order, then the share-loop
results) and the final store. -/
def shareDirect (st : Store) (mediaId senderId : Nat)
    (emails : List String) (vo : Bool) (expiresInHours : Nat)
    (now : Time) : Option (List ShareResult × Store) :=
  if emails.isEmpty then none
  else if emails.any (fun e => !validEmailFormat e) then none
  else
    match findMedia st.media mediaId with
    | none => none
    | some m =>
      if m.owner != senderId then none
      else
        let ru := resolveRecipients st.users emails
        let rs := shareUsersLoop m senderId vo expiresInHours now st ru.2
        some (ru.1 ++ rs.1, rs.2)

/-! ## Statement-level predicates -/

/-- `p ∈ media.isHiddenFor` as the schema methods test it. -/
def Media.hiddenContains (m : Media) (p : UserId) : Bool :=
  m.isHiddenFor.any (fun i => i == p)

/-- The principal has an entry with `viewed = false` in a view-once
section. -/
def ViewOnceSection.hasUnviewedEntry (v : ViewOnceSection) (p : UserId) :
    Bool :=
  v.sharedWith.any (fun e => e.user == p && !e.viewed)

/-- The principal has some entry in a view-once section. -/
def ViewOnceSection.hasEntry (v : ViewOnceSection) (p : UserId) : Bool :=
  v.sharedWith.any (fun e => e.user == p)

/-- The principal holds a persistent grant on the folder. -/
def Folder.grantFor (f : Folder) (p : UserId) : Bool :=
  f.sharedWith.any (fun s => s.user == p)

/-- The documented uniqueness invariant: at most one view-once entry per
grantee. -/
def entriesUniq (l : List ViewOnceEntry) : Prop :=
  l.Pairwise (fun a b => a.user ≠ b.user)

/-! ## Concrete instances used by witnesses and counterexamples -/

def mediaHiddenWitness : Media := ⟨3, 1, 0, ⟨true, [⟨3, false, none⟩]⟩, [3]⟩

def mediaOwnerHidden : Media := ⟨1, 7, 0, ⟨false, []⟩, [7]⟩

def folderWitnessC1 : Folder :=
  ⟨0, 4, [⟨9, Permission.upload⟩], ⟨true, [⟨9, true, some 1⟩]⟩⟩

def mediaWitnessC1 : Media := ⟨1, 4, 0, ⟨true, []⟩, []⟩

def mediaDefaultOpen : Media := ⟨1, 1, 0, ⟨false, []⟩, []⟩

def mediaWitnessC2 : Media := ⟨1, 1, 0, ⟨true, [⟨2, false, none⟩]⟩, []⟩

def folderWitnessC2 : Folder :=
  ⟨0, 1, [⟨3, Permission.view⟩], ⟨true, [⟨2, false, none⟩]⟩⟩

def mediaConsumeW : Media := ⟨2, 1, 0, ⟨true, [⟨7, false, none⟩]⟩, []⟩

def mediaDisabledEntry : Media := ⟨2, 1, 0, ⟨false, [⟨7, false, none⟩]⟩, []⟩

def folderGrantW : Folder := ⟨0, 1, [], ⟨false, []⟩⟩

def folderSelfShare : Folder := ⟨0, 4, [], ⟨false, []⟩⟩

def vonWitness : VONotif := ⟨1, 9, 2, 5, 0, false, none, none, true, 0⟩

def mediaC9 : Media := ⟨5, 1, 0, ⟨true, [⟨9, false, none⟩]⟩, []⟩

def notifC9 : StoredNotification :=
  ⟨1, 9, 1, NotifType.media_view_once, some 5, some 0, true, none, none,
   false, false, none⟩

def storeC9 : Store := ⟨[], [mediaC9], [], [notifC9], [], 50⟩

/-- A notification whose `media` reference dangles (no media with id 5
exists) while its folder exists. -/
def notifC5 : StoredNotification :=
  ⟨1, 9, 1, NotifType.media_shared, some 5, some 0, false, none, none,
   false, false, none⟩

def storeC5 : Store := ⟨[], [], [⟨0, 1, [], ⟨false, []⟩⟩], [notifC5], [], 100⟩

/-- The same notification with both references resolving, but the
recipient can no longer view the media (view-once enabled, no entry). -/
def storeC5b : Store :=
  ⟨[], [⟨5, 1, 0, ⟨true, []⟩, []⟩],
   [⟨0, 1, [⟨9, Permission.view⟩], ⟨false, []⟩⟩], [notifC5], [], 100⟩

/-- Sender 2 owns media 5 in folder 0; only "bob@x.co" resolves. -/
def storeC7 : Store :=
  ⟨[⟨2, "own@x.co"⟩, ⟨3, "bob@x.co"⟩],
   [⟨5, 2, 0, ⟨false, []⟩, []⟩],
   [⟨0, 2, [], ⟨false, []⟩⟩],
   [], [], 10⟩

def resultsC7w : List ShareResult := [⟨"bob@x.co", true, some 10, none⟩]

def storeC7w : Store :=
  ⟨[⟨2, "own@x.co"⟩, ⟨3, "bob@x.co"⟩],
   [⟨5, 2, 0, ⟨false, []⟩, []⟩],
   [⟨0, 2, [], ⟨false, []⟩⟩],
   [⟨10, 3, 2, NotifType.media_shared, some 5, some 0, false, none, none,
     false, false, none⟩],
   [], 11⟩

/-! ## Helper lemmas -/

/-- A hidden principal is denied by `Media.canView` (the hidden test is
the method's first branch). -/
theorem canView_false_of_hidden (m : Media) (p : UserId)
    (h : m.isHiddenFor.any (fun i => i == p) = true) :
    m.canView p = false := by
  unfold Media.canView
  simp [h]

/-- Under the uniqueness invariant, the first-match test the schema
methods perform (`find?` then `viewed`) agrees with "some unviewed entry
exists". -/
theorem find?_unviewed_eq_any (l : List ViewOnceEntry) (p : UserId)
    (h : entriesUniq l) :
    (match l.find? (fun e => e.user == p) with
     | some e => !e.viewed
     | none => false) = l.any (fun e => e.user == p && !e.viewed) := by
  induction l with
  | nil => rfl
  | cons a l ih =>
    rw [entriesUniq, List.pairwise_cons] at h
    obtain ⟨ha, hl⟩ := h
    by_cases hp : a.user = p
    · rw [List.find?_cons_of_pos _ (by simp [hp])]
      have hany : l.any (fun e => e.user == p && !e.viewed) = false := by
        rw [List.any_eq_false]
        intro b hb
        have hne := ha b hb
        rw [hp] at hne
        simp only [Bool.and_eq_true, Bool.not_eq_true', beq_iff_eq, not_and]
        intro hbu
        exact absurd hbu.symm hne
      simp [hany, hp]
    · rw [List.find?_cons_of_neg _ (by simp [hp])]
      rw [ih hl]
      simp [hp]

/-- `find?` after `updateFirst` with the same predicate: the found
element is rewritten, provided the rewrite keeps it matching. -/
theorem find?_updateFirst (p : α → Bool) (f : α → α) (l : List α) (e : α)
    (h : l.find? p = some e) (hp : p (f e) = true) :
    (updateFirst p f l).find? p = some (f e) := by
  induction l with
  | nil => simp [List.find?] at h
  | cons a l ih =>
    by_cases hpa : p a
    · rw [List.find?_cons_of_pos _ hpa] at h
      injection h with h
      subst h
      unfold updateFirst
      simp only [hpa, if_true]
      exact List.find?_cons_of_pos _ hp
    · rw [List.find?_cons_of_neg _ hpa] at h
      unfold updateFirst
      simp only [hpa, if_false, Bool.false_eq_true]
      rw [List.find?_cons_of_neg _ hpa]
      exact ih h

/-- What `markAsViewed` does when it actually consumes: view-once
enabled, the entry is found and unviewed. -/
theorem markAsViewed_consumed (m : Media) (g : UserId) (now : Time)
    (e : ViewOnceEntry) (hen : m.viewOnce.enabled = true)
    (hfind : m.viewOnce.sharedWith.find? (fun x => x.user == g) = some e)
    (hv : e.viewed = false) :
    m.markAsViewed g now =
      ({ m with viewOnce :=
          { m.viewOnce with sharedWith :=
              (updateFirst (fun x => x.user == g)
                (fun x => { x with viewed := true, viewedAt := some now })
                m.viewOnce.sharedWith) } }, true) := by
  unfold Media.markAsViewed
  simp [hen, hfind, hv]

/-- Conversely, a `true` consumed flag can only come from that branch. -/
theorem markAsViewed_consumed_inv (m : Media) (g : UserId) (now : Time)
    (h2 : (m.markAsViewed g now).2 = true) :
    ∃ e, m.viewOnce.enabled = true ∧
      m.viewOnce.sharedWith.find? (fun x => x.user == g) = some e ∧
      e.viewed = false := by
  unfold Media.markAsViewed at h2
  by_cases hen : m.viewOnce.enabled
  · rw [if_pos hen] at h2
    cases hfind : m.viewOnce.sharedWith.find? (fun x => x.user == g) with
    | none => rw [hfind] at h2; simp at h2
    | some e =>
      rw [hfind] at h2
      by_cases hv : e.viewed
      · simp [hv] at h2
      · exact ⟨e, hen, rfl, by simpa using hv⟩
  · rw [if_neg hen] at h2
    simp at h2

theorem hideFromUser_mem (m : Media) (uid : UserId) :
    uid ∈ (m.hideFromUser uid).isHiddenFor := by
  unfold Media.hideFromUser
  by_cases h : m.isHiddenFor.any (fun i => i == uid)
  · rw [if_pos h]
    obtain ⟨x, hx, hpx⟩ := List.any_eq_true.mp h
    have hxe : x = uid := by simpa using hpx
    rwa [hxe] at hx
  · rw [if_neg h]
    exact List.mem_append.mpr (Or.inr (List.mem_singleton.mpr rfl))

theorem hideFromUser_id (m : Media) (uid : UserId) :
    (m.hideFromUser uid).id = m.id := by
  unfold Media.hideFromUser
  split <;> rfl

theorem hideFromUser_viewOnce (m : Media) (uid : UserId) :
    (m.hideFromUser uid).viewOnce = m.viewOnce := by
  unfold Media.hideFromUser
  split <;> rfl

/-- Hiding a media item from a user changes no id and no view-once
section anywhere in the collection. -/
theorem hideMediaFrom_pairs (l : List Media) (mid : Nat) (uid : UserId) :
    (l.map (fun x => if x.id == mid then x.hideFromUser uid else x)).map
        (fun x => (x.id, x.viewOnce)) =
      l.map (fun x => (x.id, x.viewOnce)) := by
  induction l with
  | nil => rfl
  | cons a l ih =>
    simp only [List.map_cons, ih]
    by_cases h : a.id == mid
    · simp [h, hideFromUser_id, hideFromUser_viewOnce]
    · simp [h]

/-! ## Claim theorems -/

/-- C4: for every media item and every principal `p` in its `hiddenFor`
set, `canView` returns `false` — the hidden check is the first one the
method performs, so it wins even over an unconsumed view-once entry or
any other state. -/
theorem hiddenFor_suppresses_canView (m : Media) (p : UserId)
    (h : m.hiddenContains p = true) : m.canView p = false := by
  unfold Media.hiddenContains at h
  exact canView_false_of_hidden m p h

/-- C4 witness: a hidden principal holding an unconsumed view-once entry
still cannot view. -/
theorem hiddenFor_suppresses_canView_witness :
    mediaHiddenWitness.canView 3 = false :=
  hiddenFor_suppresses_canView mediaHiddenWitness 3 (by decide)

/-- C6: the derived scheduled-operation status: `expired` whenever
`expiresAt` is set and strictly past (this branch precedes the pending
check, so it wins even for a future `scheduledFor`); else `pending` when
`scheduledFor` is set and strictly future; else `executed` — including
the three quoted instances. -/
theorem computeStatus_spec (now : Time) (sf eo : Option Time) :
    (∀ e, eo = some e → e < now → computeStatus sf eo now = OpStatus.expired)
    ∧ ((∀ e, eo = some e → ¬ e < now) →
        ∀ s, sf = some s → s > now →
          computeStatus sf eo now = OpStatus.pending)
    ∧ ((∀ e, eo = some e → ¬ e < now) → (∀ s, sf = some s → ¬ s > now) →
        computeStatus sf eo now = OpStatus.executed)
    ∧ computeStatus (some (now + 3600)) none now = OpStatus.pending
    ∧ computeStatus (some (now - 3600)) none now = OpStatus.executed
    ∧ computeStatus (some (now + 3600)) (some (now - 60)) now =
        OpStatus.expired := by
  refine ⟨?_, ?_, ?_, ?_, ?_, ?_⟩
  · intro e he hlt
    subst he
    simp [computeStatus, Option.any, hlt]
  · intro hno s hs hgt
    subst hs
    cases eo with
    | none => simp [computeStatus, Option.any, hgt]
    | some e =>
      have := hno e rfl
      simp [computeStatus, Option.any, hgt, this]
  · intro hno hns
    cases eo with
    | none =>
      cases sf with
      | none => simp [computeStatus, Option.any]
      | some s =>
        have := hns s rfl
        simp [computeStatus, Option.any, this]
    | some e =>
      have he := hno e rfl
      cases sf with
      | none => simp [computeStatus, Option.any, he]
      | some s =>
        have hs := hns s rfl
        simp [computeStatus, Option.any, he, hs]
  · simp [computeStatus, Option.any]
  · simp [computeStatus, Option.any]
  · simp [computeStatus, Option.any]

/-- C6 witness: the precedence case at a concrete clock. -/
theorem computeStatus_spec_witness :
    computeStatus (some 3600) (some (-60)) 0 = OpStatus.expired :=
  (computeStatus_spec 0 (some 3600) (some (-60))).1 (-60) rfl (by decide)

/-- C1 (amended): the owner always has full access on folders —
`hasAccess`, `canViewFolder`, `canEdit`, `canUpload`, `canDelete`,
`canShare` are all true regardless of grants, view-once entries, the
view-once flag or anything else.  On media the owner-only methods
`canEdit` and `canDelete` are true, but `canView` gives the owner no
special case: it returns `false` for an owner listed in `hiddenFor`, and
for an owner of a view-once-enabled item with no entry of their own. -/
theorem owner_access_amended (f : Folder) (m : Media) (p : UserId)
    (hf : f.owner = p) (hm : m.owner = p) :
    f.hasAccess p = true ∧ f.canViewFolder p = true ∧ f.canEdit p = true ∧
    f.canUpload p = true ∧ f.canDelete p = true ∧ f.canShare p = true ∧
    m.canEdit p = true ∧ m.canDelete p = true ∧
    (m.hiddenContains p = true → m.canView p = false) ∧
    (m.viewOnce.enabled = true →
      m.viewOnce.sharedWith.find? (fun e => e.user == p) = none →
      m.canView p = false) := by
  refine ⟨?_, ?_, ?_, ?_, ?_, ?_, ?_, ?_, ?_, ?_⟩
  · simp [Folder.hasAccess, hf]
  · simp [Folder.canViewFolder, hf]
  · simp [Folder.canEdit, hf]
  · simp [Folder.canUpload, hf]
  · simp [Folder.canDelete, hf]
  · simp [Folder.canShare, hf]
  · simp [Media.canEdit, hm]
  · simp [Media.canDelete, hm]
  · intro hh
    unfold Media.hiddenContains at hh
    exact canView_false_of_hidden m p hh
  · intro hen hnone
    unfold Media.canView
    by_cases hh : m.isHiddenFor.any (fun i => i == p)
    · simp [hh]
    · simp [hh, hen, hnone]

/-- C1 counterexample: a media owner who appears in their own item's
`hiddenFor` list is denied `canView` — the claim promised full owner
access regardless of `hiddenFor` membership. -/
theorem owner_access_cex :
    mediaOwnerHidden.owner = 7 ∧ mediaOwnerHidden.canView 7 = false := by
  decide

/-- C1 witness: owner access on a folder full of foreign grants, and the
owner-only media methods. -/
theorem owner_access_amended_witness :
    folderWitnessC1.hasAccess 4 = true ∧
    folderWitnessC1.canViewFolder 4 = true ∧
    folderWitnessC1.canEdit 4 = true ∧ folderWitnessC1.canUpload 4 = true ∧
    folderWitnessC1.canDelete 4 = true ∧ folderWitnessC1.canShare 4 = true ∧
    mediaWitnessC1.canEdit 4 = true ∧ mediaWitnessC1.canDelete 4 = true ∧
    (mediaWitnessC1.hiddenContains 4 = true →
      mediaWitnessC1.canView 4 = false) ∧
    (mediaWitnessC1.viewOnce.enabled = true →
      mediaWitnessC1.viewOnce.sharedWith.find? (fun e => e.user == 4) =
        none →
      mediaWitnessC1.canView 4 = false) :=
  owner_access_amended folderWitnessC1 mediaWitnessC1 4 rfl rfl

/-- C2 (amended): access characterization for non-trivial states.  For a
folder, `hasAccess p` holds iff `p` is the owner, holds a persistent
grant, or the view-once section is *enabled* and `p` holds an unviewed
entry.  For a media item, `canView p` holds iff `p` is not hidden and
either the view-once section is disabled — media default to visible — or
`p` holds an unviewed entry.  In particular a non-owner with no grant of
any kind can still view a media item whose view-once section is off, and
an unviewed entry grants nothing while the section is disabled. -/
theorem canView_hasAccess_characterization (m : Media) (f : Folder)
    (p : UserId) (hm : entriesUniq m.viewOnce.sharedWith)
    (hf : entriesUniq f.viewOnce.sharedWith) :
    m.canView p =
      (!(m.hiddenContains p) &&
        (!m.viewOnce.enabled || m.viewOnce.hasUnviewedEntry p))
    ∧ f.hasAccess p =
      ((f.owner == p) || f.grantFor p ||
        (f.viewOnce.enabled && f.viewOnce.hasUnviewedEntry p)) := by
  constructor
  · unfold Media.canView Media.hiddenContains ViewOnceSection.hasUnviewedEntry
    by_cases hh : m.isHiddenFor.any (fun i => i == p)
    · simp [hh]
    · by_cases hen : m.viewOnce.enabled
      · simp only [hh, hen, if_false, if_true, Bool.not_false, Bool.not_true,
          Bool.true_and, Bool.false_or, Bool.false_eq_true]
        exact find?_unviewed_eq_any m.viewOnce.sharedWith p hm
      · simp [hh, hen]
  · unfold Folder.hasAccess Folder.grantFor ViewOnceSection.hasUnviewedEntry
    by_cases ho : f.owner == p
    · simp [ho]
    · by_cases hg : f.sharedWith.any (fun s => s.user == p)
      · simp [ho, hg]
      · by_cases hen : f.viewOnce.enabled
        · simp only [ho, hg, hen, if_false, if_true, Bool.false_or,
            Bool.true_and, Bool.false_eq_true]
          exact find?_unviewed_eq_any f.viewOnce.sharedWith p hf
        · simp [ho, hg, hen]

/-- C2 counterexample: principal 2 is not the owner, is not hidden, holds
no grant and no view-once entry on `mediaDefaultOpen`, yet `canView`
returns `true` — the claim promised `false` for such a principal. -/
theorem canView_nongrantee_cex :
    mediaDefaultOpen.owner ≠ 2 ∧
    mediaDefaultOpen.hiddenContains 2 = false ∧
    mediaDefaultOpen.viewOnce.sharedWith = [] ∧
    mediaDefaultOpen.canView 2 = true := by
  decide

/-- C2 witness: the characterization evaluated on a state with one grant
and one unviewed entry. -/
theorem canView_hasAccess_characterization_witness :
    mediaWitnessC2.canView 2 =
      (!(mediaWitnessC2.hiddenContains 2) &&
        (!mediaWitnessC2.viewOnce.enabled ||
          mediaWitnessC2.viewOnce.hasUnviewedEntry 2))
    ∧ folderWitnessC2.hasAccess 2 =
      ((folderWitnessC2.owner == 2) || folderWitnessC2.grantFor 2 ||
        (folderWitnessC2.viewOnce.enabled &&
          folderWitnessC2.viewOnce.hasUnviewedEntry 2)) :=
  canView_hasAccess_characterization mediaWitnessC2 folderWitnessC2 2
    (by simp [entriesUniq, mediaWitnessC2, List.pairwise_singleton])
    (by simp [entriesUniq, folderWitnessC2, List.pairwise_singleton])

/-- C3 (amended): view-once consumption (`markAsViewed`).  When the entry
for the grantee is absent or already viewed the call is a no-op returning
`consumed = false`; the same holds — and this is the correction — when
the item's view-once flag is *disabled*, even if an unviewed entry
exists.  When the flag is enabled and an unviewed entry exists, the call
sets `viewed = true` and `viewedAt = now` on that entry and returns
`consumed = true`; after any consuming call, `canView` for that pair is
`false` and a repeated consume returns `consumed = false`. -/
theorem consume_spec (m : Media) (g : UserId) (now t2 : Time) :
    (m.viewOnce.sharedWith.find? (fun x => x.user == g) = none →
      m.markAsViewed g now = (m, false))
    ∧ (∀ e, m.viewOnce.sharedWith.find? (fun x => x.user == g) = some e →
        e.viewed = true → m.markAsViewed g now = (m, false))
    ∧ (m.viewOnce.enabled = false → m.markAsViewed g now = (m, false))
    ∧ (∀ e, m.viewOnce.enabled = true →
        m.viewOnce.sharedWith.find? (fun x => x.user == g) = some e →
        e.viewed = false →
        (m.markAsViewed g now).2 = true ∧
        (m.markAsViewed g now).1.viewOnce.sharedWith.find?
            (fun x => x.user == g) =
          some { e with viewed := true, viewedAt := some now })
    ∧ ((m.markAsViewed g now).2 = true →
        (m.markAsViewed g now).1.canView g = false ∧
        ((m.markAsViewed g now).1.markAsViewed g t2).2 = false) := by
  refine ⟨?_, ?_, ?_, ?_, ?_⟩
  · intro hnone
    unfold Media.markAsViewed
    by_cases hen : m.viewOnce.enabled
    · simp [hen, hnone]
    · simp [hen]
  · intro e hfind hv
    unfold Media.markAsViewed
    by_cases hen : m.viewOnce.enabled
    · simp [hen, hfind, hv]
    · simp [hen]
  · intro hen
    unfold Media.markAsViewed
    simp [hen]
  · intro e hen hfind hv
    have hpe : ((fun x : ViewOnceEntry => x.user == g)
        { e with viewed := true, viewedAt := some now }) = true := by
      simpa using List.find?_some hfind
    rw [markAsViewed_consumed m g now e hen hfind hv]
    exact ⟨rfl,
      find?_updateFirst (fun x => x.user == g)
        (fun x => { x with viewed := true, viewedAt := some now })
        m.viewOnce.sharedWith e hfind hpe⟩
  · intro h2
    obtain ⟨e, hen, hfind, hv⟩ := markAsViewed_consumed_inv m g now h2
    have hpe : ((fun x : ViewOnceEntry => x.user == g)
        { e with viewed := true, viewedAt := some now }) = true := by
      simpa using List.find?_some hfind
    have hfind2 :=
      find?_updateFirst (fun x => x.user == g)
        (fun x => { x with viewed := true, viewedAt := some now })
        m.viewOnce.sharedWith e hfind hpe
    rw [markAsViewed_consumed m g now e hen hfind hv]
    constructor
    · unfold Media.canView
      by_cases hh : m.isHiddenFor.any (fun i => i == g)
      · simp [hh]
      · simp [hh, hen, hfind2]
    · unfold Media.markAsViewed
      simp [hen, hfind2]

/-- C3 counterexample: an unviewed entry on a media item whose view-once
flag is disabled — the claim demands `consumed = true` and the flag set,
but `markAsViewed` is a no-op returning `consumed = false`. -/
theorem consume_cex :
    mediaDisabledEntry.viewOnce.sharedWith.find? (fun x => x.user == 7) =
      some ⟨7, false, none⟩ ∧
    mediaDisabledEntry.viewOnce.enabled = false ∧
    mediaDisabledEntry.markAsViewed 7 5 = (mediaDisabledEntry, false) := by
  decide

/-- C3 witness: a concrete consume, then denial and replay rejection. -/
theorem consume_spec_witness :
    (mediaConsumeW.markAsViewed 7 5).1.canView 7 = false ∧
    ((mediaConsumeW.markAsViewed 7 5).1.markAsViewed 7 9).2 = false :=
  (consume_spec mediaConsumeW 7 5 9).2.2.2.2 (by decide)

/-- C8 (amended): duplicate-safe grant writes.  For a grantee distinct
from the folder's owner (the share route rejects sharing with oneself)
and a folder satisfying the at-most-one-grant invariant, two identical
`shareWithUser` calls leave exactly one grant for the grantee.  Adding a
view-once entry for a grantee that already has one is a state-level
no-op on media and folders alike (so the `viewed` flag is never reset),
and adding twice equals adding once. -/
theorem grant_idempotent (f : Folder) (g : UserId) (perm : Permission)
    (hg : g ≠ f.owner)
    (hcount : (f.sharedWith.filter (fun s => s.user == g)).length ≤ 1) :
    ((((f.shareWithUser g perm f.owner).1.shareWithUser g perm
          f.owner).1.sharedWith.filter (fun s => s.user == g)).length = 1)
    ∧ (∀ m2 : Media, m2.viewOnce.hasEntry g = true →
        m2.addViewOnceUser g = m2)
    ∧ (∀ m2 : Media,
        (m2.addViewOnceUser g).addViewOnceUser g = m2.addViewOnceUser g)
    ∧ (∀ f2 : Folder, f2.viewOnce.hasEntry g = true →
        f2.addViewOnceUser g = f2)
    ∧ (∀ f2 : Folder,
        (f2.addViewOnceUser g).addViewOnceUser g = f2.addViewOnceUser g) := by
  refine ⟨?_, ?_, ?_, ?_, ?_⟩
  · by_cases hany : f.sharedWith.any (fun s => s.user == g)
    · have e1 : (f.shareWithUser g perm f.owner).1 = f := by
        unfold Folder.shareWithUser
        simp [hany]
      rw [e1, e1]
      obtain ⟨x, hx, hpx⟩ := List.any_eq_true.mp hany
      have hmem : x ∈ f.sharedWith.filter (fun s => s.user == g) :=
        List.mem_filter.mpr ⟨hx, hpx⟩
      have hpos := List.length_pos.mpr (List.ne_nil_of_mem hmem)
      omega
    · have hbeq : (g == f.owner) = false := by
        simpa using hg
      have hall : ∀ x ∈ f.sharedWith, ¬ x.user = g := by
        simpa using hany
      have e1 : (f.shareWithUser g perm f.owner).1 =
          { f with sharedWith := f.sharedWith ++ [⟨g, perm⟩] } := by
        unfold Folder.shareWithUser
        simp [hany, hbeq]
      have hnil : f.sharedWith.filter (fun s => s.user == g) = [] := by
        rw [List.filter_eq_nil_iff]
        intro a ha
        simpa using hall a ha
      have hany2 : (f.sharedWith ++ [(⟨g, perm⟩ : PersistentGrant)]).any
          (fun s => s.user == g) = true := by
        simp [List.any_append]
      have e2 : (({ f with sharedWith := f.sharedWith ++ [⟨g, perm⟩] } :
          Folder).shareWithUser g perm f.owner).1 =
          { f with sharedWith := f.sharedWith ++ [⟨g, perm⟩] } := by
        unfold Folder.shareWithUser
        simp [hany2]
      rw [e1, e2]
      simp [List.filter_append, hnil]
  · intro m2 h
    unfold ViewOnceSection.hasEntry at h
    unfold Media.addViewOnceUser
    simp [h]
  · intro m2
    by_cases hany : m2.viewOnce.sharedWith.any (fun e => e.user == g)
    · unfold Media.addViewOnceUser
      simp [hany]
    · have h1 : m2.addViewOnceUser g =
          { m2 with viewOnce :=
              { m2.viewOnce with sharedWith :=
                  m2.viewOnce.sharedWith ++ [⟨g, false, none⟩] } } := by
        unfold Media.addViewOnceUser
        simp [hany]
      rw [h1]
      unfold Media.addViewOnceUser
      simp [List.any_append]
  · intro f2 h
    unfold ViewOnceSection.hasEntry at h
    unfold Folder.addViewOnceUser
    simp [h]
  · intro f2
    by_cases hany : f2.viewOnce.sharedWith.any (fun e => e.user == g)
    · unfold Folder.addViewOnceUser
      simp [hany]
    · have h1 : f2.addViewOnceUser g =
          { f2 with viewOnce :=
              { f2.viewOnce with sharedWith :=
                  f2.viewOnce.sharedWith ++ [⟨g, false, none⟩] } } := by
        unfold Folder.addViewOnceUser
        simp [hany]
      rw [h1]
      unfold Folder.addViewOnceUser
      simp [List.any_append]

/-- C8 counterexample: with the grantee equal to the owner the share
route rejects both calls ("Cannot share folder with yourself") and zero
grants remain, not the promised exactly one. -/
theorem grant_idempotent_cex :
    ((((folderSelfShare.shareWithUser 4 Permission.view 4).1.shareWithUser
        4 Permission.view 4).1.sharedWith.filter
        (fun s => s.user == 4)).length = 0) ∧
    folderSelfShare.owner = 4 := by
  decide

/-- C8 witness: a fresh grantee ends with exactly one grant after two
identical share calls. -/
theorem grant_idempotent_witness :
    ((((folderGrantW.shareWithUser 2 Permission.view
          folderGrantW.owner).1.shareWithUser 2 Permission.view
          folderGrantW.owner).1.sharedWith.filter
        (fun s => s.user == 2)).length = 1) :=
  (grant_idempotent folderGrantW 2 Permission.view (by decide)
    (by decide)).1

/-- C10: the view-once portion of the professional notification listing
contains only notifications with `isActive = true`, `isViewed = false`
and `expiresAt` absent or strictly in the future, and is the same list
for every choice of the `includeViewed` / `includeExpired` options — the
service destructures them but never uses them. -/
theorem professional_viewonce_options_ignored (vons : List VONotif)
    (uid : Nat) (now : Time) (limit : Nat) (iv1 ie1 iv2 ie2 : Bool) :
    professionalViewOncePortion vons uid ⟨limit, iv1, ie1⟩ now =
      professionalViewOncePortion vons uid ⟨limit, iv2, ie2⟩ now
    ∧ ∀ n ∈ professionalViewOncePortion vons uid ⟨limit, iv1, ie1⟩ now,
        n.isActive = true ∧ n.isViewed = false ∧
        (n.expiresAt = none ∨ ∃ e, n.expiresAt = some e ∧ now < e) := by
  constructor
  · rfl
  · intro n hn
    unfold professionalViewOncePortion getActiveNotifications at hn
    have hn2 : n ∈ vons.filter (fun n =>
        n.recipient == uid && n.isActive && !n.isViewed &&
        (match n.expiresAt with
         | none => true
         | some e => decide (e > now))) :=
      List.take_subset _ _ hn
    rw [List.mem_filter] at hn2
    obtain ⟨-, hp⟩ := hn2
    simp only [Bool.and_eq_true] at hp
    obtain ⟨⟨⟨hrec, hact⟩, hnv⟩, hexp⟩ := hp
    refine ⟨hact, by simpa using hnv, ?_⟩
    cases he : n.expiresAt with
    | none => exact Or.inl rfl
    | some e =>
      rw [he] at hexp
      exact Or.inr ⟨e, rfl, of_decide_eq_true hexp⟩

/-- C10 witness: one qualifying view-once notification under two option
choices. -/
theorem professional_viewonce_options_ignored_witness :
    vonWitness.isActive = true ∧ vonWitness.isViewed = false ∧
    (vonWitness.expiresAt = none ∨
      ∃ e, vonWitness.expiresAt = some e ∧ (0 : Time) < e) :=
  (professional_viewonce_options_ignored [vonWitness] 9 0 50 false false
    true true).2 vonWitness (by decide)

/-- C9 (amended): the `PUT /notifications/:id/viewed` endpoint, on a
view-once notification whose media reference resolves, marks the
*notification* as viewed and adds the recipient to the media's
`hiddenFor` set, but performs no view consumption: the `viewOnce`
section (entries and flags included) of every media document is left
exactly as it was. -/
theorem notification_viewed_endpoint (st : Store) (nid : Nat)
    (uid : UserId) (now : Time) (n : StoredNotification) (m : Media)
    (hn : findNotifFor st nid uid = some n)
    (hvo : n.viewOnce = true)
    (hm : n.media.bind (findMedia st.media) = some m) :
    ∃ st2, markNotificationViewedRoute st nid uid now = some st2 ∧
      st2.media.map (fun x => (x.id, x.viewOnce)) =
        st.media.map (fun x => (x.id, x.viewOnce)) ∧
      (∃ m2 ∈ st2.media, m2.id = m.id ∧ uid ∈ m2.isHiddenFor) ∧
      (∃ n2 ∈ st2.notifs, n2.id = n.id ∧ n2.isViewed = true) := by
  have hroute : markNotificationViewedRoute st nid uid now =
      some ((st.updateNotif
        { n with isViewed := true, viewedAt := some now }).hideMediaFrom
        m.id uid) := by
    unfold markNotificationViewedRoute
    rw [hn]
    simp [hvo, hm]
  refine ⟨_, hroute, ?_, ?_, ?_⟩
  · show (st.media.map
        (fun x => if x.id == m.id then x.hideFromUser uid else x)).map
          (fun x => (x.id, x.viewOnce)) =
      st.media.map (fun x => (x.id, x.viewOnce))
    exact hideMediaFrom_pairs st.media m.id uid
  · cases hmed : n.media with
    | none => rw [hmed] at hm; simp at hm
    | some mid =>
      rw [hmed] at hm
      simp only [Option.some_bind] at hm
      have hmem : m ∈ st.media := List.mem_of_find?_eq_some hm
      refine ⟨m.hideFromUser uid, ?_, hideFromUser_id m uid,
        hideFromUser_mem m uid⟩
      show m.hideFromUser uid ∈ st.media.map
        (fun x => if x.id == m.id then x.hideFromUser uid else x)
      have hfx : (fun x => if x.id == m.id then x.hideFromUser uid else x)
          m = m.hideFromUser uid := by simp
      exact List.mem_map.mpr ⟨m, hmem, hfx⟩
  · have hmemn : n ∈ st.notifs := by
      unfold findNotifFor at hn
      exact List.mem_of_find?_eq_some hn
    refine ⟨{ n with isViewed := true, viewedAt := some now }, ?_, rfl, rfl⟩
    show _ ∈ st.notifs.map (fun x =>
      if x.id == ({ n with isViewed := true, viewedAt := some now } :
          StoredNotification).id
      then { n with isViewed := true, viewedAt := some now } else x)
    have hfx : (fun x =>
        if x.id == ({ n with isViewed := true, viewedAt := some now } :
            StoredNotification).id
        then { n with isViewed := true, viewedAt := some now } else x) n =
        { n with isViewed := true, viewedAt := some now } := by simp
    exact List.mem_map.mpr ⟨n, hmemn, hfx⟩

/-- C9 counterexample: after the viewed endpoint runs on a view-once
notification, the recipient (9) is in the media's `hiddenFor`, but the
media's view-once entry for 9 still has `viewed = false` — the claim
said consumption is triggered and the entry flag becomes true. -/
theorem notification_viewed_cex :
    (markNotificationViewedRoute storeC9 1 9 100).map
        (fun st2 => st2.media.map
          (fun m => (m.isHiddenFor, m.viewOnce.sharedWith.map
            (fun e => (e.viewed, e.viewedAt))))) =
      some [([9], [(false, none)])] := by
  decide

/-- C9 witness: the amended statement on the same concrete store. -/
theorem notification_viewed_endpoint_witness :
    ∃ st2, markNotificationViewedRoute storeC9 1 9 100 = some st2 ∧
      st2.media.map (fun x => (x.id, x.viewOnce)) =
        storeC9.media.map (fun x => (x.id, x.viewOnce)) ∧
      (∃ m2 ∈ st2.media, m2.id = mediaC9.id ∧ 9 ∈ m2.isHiddenFor) ∧
      (∃ n2 ∈ st2.notifs, n2.id = notifC9.id ∧ n2.isViewed = true) :=
  notification_viewed_endpoint storeC9 1 9 100 notifC9 mediaC9
    (by decide) (by decide) (by decide)

/-- C5: evaluation of the reconciliation at a notification whose media
reference dangles.  `listSharedMedia` *returns* the stale notification
and deletes nothing — the route's own comment ("Filter out notifications
for media/folders that no longer exist") and its dead `!media || !folder`
deletion branch show the intent the claim describes, but Mongoose
`populate` nulls the dangling reference first, so the guard skips the
whole validation.  The second store shows the loop does delete when both
references resolve and the recipient fails `canView`. -/
theorem reconciler_dangling_media_kept :
    findMedia storeC5.media 5 = none ∧
    (listSharedMedia storeC5 9).1 = [notifC5] ∧
    (listSharedMedia storeC5 9).2 = storeC5 ∧
    (listSharedMedia storeC5b 9).1 = [] ∧
    (listSharedMedia storeC5b 9).2.notifs = [] := by
  decide

/-! ## Share-direct helper lemmas -/

theorem resolveRecipients_spec (users : List UserRec)
    (emails : List String) :
    (resolveRecipients users emails).1.length +
      (resolveRecipients users emails).2.length = emails.length ∧
    ∀ r ∈ (resolveRecipients users emails).1,
      r.success = false ∧ r.error.isSome := by
  induction emails with
  | nil => exact ⟨rfl, by intro r hr; simp [resolveRecipients] at hr⟩
  | cons e rest ih =>
    obtain ⟨ihlen, ihfail⟩ := ih
    cases h : findUserByEmail users (toLowerStr e) with
    | none =>
      constructor
      · simp only [resolveRecipients, h, List.length_cons]
        omega
      · intro r hr
        simp only [resolveRecipients, h, List.mem_cons] at hr
        rcases hr with hr | hr
        · subst hr
          exact ⟨rfl, rfl⟩
        · exact ihfail r hr
    | some u =>
      constructor
      · simp only [resolveRecipients, h, List.length_cons]
        omega
      · intro r hr
        simp only [resolveRecipients, h] at hr
        exact ihfail r hr

theorem createViewOnceNotificationService_store (st : Store)
    (r s mi fi hrs : Nat) (now : Time) (out : Nat × Nat × Store)
    (h : createViewOnceNotificationService st r s mi fi hrs now =
      some out) :
    out.2.2.media = st.media ∧ out.2.2.folders = st.folders ∧
    out.2.2.users = st.users ∧
    (∃ a, out.2.2.notifs = st.notifs ++ a) ∧
    out.2.2.vons.length = st.vons.length + 1 := by
  unfold createViewOnceNotificationService at h
  cases h1 : findMedia st.media mi with
  | none => rw [h1] at h; exact absurd h (by simp)
  | some m0 =>
    rw [h1] at h
    cases h2 : findFolder st.folders fi with
    | none => rw [h2] at h; exact absurd h (by simp)
    | some f0 =>
      rw [h2] at h
      cases h3 : findUserById st.users s with
      | none => rw [h3] at h; exact absurd h (by simp)
      | some u0 =>
        rw [h3] at h
        simp only [Option.some.injEq] at h
        subst h
        refine ⟨rfl, rfl, rfl, ⟨_, rfl⟩, ?_⟩
        simp [createMediaShareNotification, List.length_append]

theorem shareOneUser_store (st : Store) (m : Media) (s : Nat) (vo : Bool)
    (hrs : Nat) (now : Time) (u : UserRec) :
    (shareOneUser st m s vo hrs now u).2.media = st.media ∧
    (shareOneUser st m s vo hrs now u).2.folders = st.folders ∧
    (shareOneUser st m s vo hrs now u).2.users = st.users ∧
    (∃ a, (shareOneUser st m s vo hrs now u).2.notifs = st.notifs ++ a) := by
  unfold shareOneUser
  cases hf : findFolder st.folders m.folder with
  | none => exact ⟨rfl, rfl, rfl, [], by simp⟩
  | some f0 =>
    by_cases hvo : vo
    · simp only [hvo, if_true]
      cases hs : createViewOnceNotificationService st u.id s m.id m.folder
          hrs now with
      | none => exact ⟨rfl, rfl, rfl, [], by simp⟩
      | some out =>
        obtain ⟨h1, h2, h3, h4, _⟩ :=
          createViewOnceNotificationService_store st u.id s m.id m.folder
            hrs now out hs
        exact ⟨h1, h2, h3, h4⟩
    · simp only [hvo, if_false, Bool.false_eq_true]
      exact ⟨rfl, rfl, rfl, ⟨_, rfl⟩⟩

theorem shareOneUser_vons_count (st : Store) (m : Media) (s hrs : Nat)
    (now : Time) (u : UserRec) :
    (shareOneUser st m s true hrs now u).2.vons.length =
      st.vons.length +
        (if (shareOneUser st m s true hrs now u).1.success then 1 else 0) := by
  unfold shareOneUser
  cases hf : findFolder st.folders m.folder with
  | none => simp
  | some f0 =>
    simp only [if_true]
    cases hs : createViewOnceNotificationService st u.id s m.id m.folder
        hrs now with
    | none => simp
    | some out =>
      obtain ⟨-, -, -, -, h5⟩ :=
        createViewOnceNotificationService_store st u.id s m.id m.folder
          hrs now out hs
      simpa using h5

theorem shareOneUser_vo_notifId_none (st : Store) (m : Media) (s hrs : Nat)
    (now : Time) (u : UserRec) :
    (shareOneUser st m s true hrs now u).1.notificationId = none := by
  unfold shareOneUser
  cases hf : findFolder st.folders m.folder with
  | none => rfl
  | some f0 =>
    simp only [if_true]
    cases hs : createViewOnceNotificationService st u.id s m.id m.folder
        hrs now with
    | none => rfl
    | some out => rfl

theorem shareOneUser_fail_error (st : Store) (m : Media) (s : Nat)
    (vo : Bool) (hrs : Nat) (now : Time) (u : UserRec)
    (h : (shareOneUser st m s vo hrs now u).1.success = false) :
    (shareOneUser st m s vo hrs now u).1.error.isSome := by
  unfold shareOneUser at h ⊢
  cases hf : findFolder st.folders m.folder with
  | none => rfl
  | some f0 =>
    rw [hf] at h
    by_cases hvo : vo
    · simp only [hvo, if_true] at h ⊢
      cases hs : createViewOnceNotificationService st u.id s m.id m.folder
          hrs now with
      | none => rfl
      | some out => rw [hs] at h; simp at h
    · simp only [hvo, if_false, Bool.false_eq_true] at h
      simp at h

theorem shareOneUser_notif_of_success (st : Store) (m : Media)
    (s hrs : Nat) (now : Time) (u : UserRec)
    (h : (shareOneUser st m s false hrs now u).1.success = true) :
    ∃ nid, (shareOneUser st m s false hrs now u).1.notificationId =
        some nid ∧
      ∃ n2 ∈ (shareOneUser st m s false hrs now u).2.notifs, n2.id = nid := by
  unfold shareOneUser at h ⊢
  cases hf : findFolder st.folders m.folder with
  | none => rw [hf] at h; simp at h
  | some f0 =>
    rw [hf] at h
    refine ⟨st.nextId, rfl,
      ⟨st.nextId, u.id, s, NotifType.media_shared, some m.id, some m.folder,
        false, none, none, false, false, none⟩, ?_, rfl⟩
    exact List.mem_append.mpr (Or.inr (List.mem_singleton.mpr rfl))

theorem shareUsersLoop_media (m : Media) (s : Nat) (vo : Bool)
    (hrs : Nat) (now : Time) (us : List UserRec) : ∀ st : Store,
    (shareUsersLoop m s vo hrs now st us).2.media = st.media := by
  induction us with
  | nil => intro st; rfl
  | cons u rest ih =>
    intro st
    simp only [shareUsersLoop]
    rw [ih]
    exact (shareOneUser_store st m s vo hrs now u).1

theorem shareUsersLoop_length (m : Media) (s : Nat) (vo : Bool)
    (hrs : Nat) (now : Time) (us : List UserRec) : ∀ st : Store,
    (shareUsersLoop m s vo hrs now st us).1.length = us.length := by
  induction us with
  | nil => intro st; rfl
  | cons u rest ih =>
    intro st
    simp only [shareUsersLoop, List.length_cons]
    rw [ih]

theorem shareUsersLoop_notifs_mono (m : Media) (s : Nat) (vo : Bool)
    (hrs : Nat) (now : Time) (us : List UserRec) : ∀ st : Store,
    ∃ a, (shareUsersLoop m s vo hrs now st us).2.notifs =
      st.notifs ++ a := by
  induction us with
  | nil => intro st; exact ⟨[], by simp [shareUsersLoop]⟩
  | cons u rest ih =>
    intro st
    obtain ⟨a1, ha1⟩ :=
      (shareOneUser_store st m s vo hrs now u).2.2.2
    obtain ⟨a2, ha2⟩ := ih (shareOneUser st m s vo hrs now u).2
    refine ⟨a1 ++ a2, ?_⟩
    simp only [shareUsersLoop]
    rw [ha2, ha1, List.append_assoc]

theorem shareUsersLoop_fail_error (m : Media) (s : Nat) (vo : Bool)
    (hrs : Nat) (now : Time) (us : List UserRec) : ∀ st : Store,
    ∀ r ∈ (shareUsersLoop m s vo hrs now st us).1,
      r.success = false → r.error.isSome := by
  induction us with
  | nil => intro st r hr; simp [shareUsersLoop] at hr
  | cons u rest ih =>
    intro st r hr hfail
    simp only [shareUsersLoop, List.mem_cons] at hr
    rcases hr with hr | hr
    · subst hr
      exact shareOneUser_fail_error st m s vo hrs now u hfail
    · exact ih (shareOneUser st m s vo hrs now u).2 r hr hfail

theorem shareUsersLoop_vo_notifId_none (m : Media) (s hrs : Nat)
    (now : Time) (us : List UserRec) : ∀ st : Store,
    ∀ r ∈ (shareUsersLoop m s true hrs now st us).1,
      r.notificationId = none := by
  induction us with
  | nil => intro st r hr; simp [shareUsersLoop] at hr
  | cons u rest ih =>
    intro st r hr
    simp only [shareUsersLoop, List.mem_cons] at hr
    rcases hr with hr | hr
    · subst hr
      exact shareOneUser_vo_notifId_none st m s hrs now u
    · exact ih (shareOneUser st m s true hrs now u).2 r hr

theorem shareUsersLoop_vons_count (m : Media) (s hrs : Nat) (now : Time)
    (us : List UserRec) : ∀ st : Store,
    (shareUsersLoop m s true hrs now st us).2.vons.length =
      st.vons.length +
        ((shareUsersLoop m s true hrs now st us).1.filter
          (fun r => r.success)).length := by
  induction us with
  | nil => intro st; simp [shareUsersLoop]
  | cons u rest ih =>
    intro st
    simp only [shareUsersLoop]
    rw [ih (shareOneUser st m s true hrs now u).2,
      shareOneUser_vons_count st m s hrs now u]
    by_cases hs : (shareOneUser st m s true hrs now u).1.success
    · simp [List.filter_cons, hs]
      omega
    · simp [List.filter_cons, hs]

theorem shareUsersLoop_notif_of_success (m : Media) (s hrs : Nat)
    (now : Time) (us : List UserRec) : ∀ st : Store,
    ∀ r ∈ (shareUsersLoop m s false hrs now st us).1,
      r.success = true →
      ∃ nid, r.notificationId = some nid ∧
        ∃ n2 ∈ (shareUsersLoop m s false hrs now st us).2.notifs,
          n2.id = nid := by
  induction us with
  | nil => intro st r hr; simp [shareUsersLoop] at hr
  | cons u rest ih =>
    intro st r hr hsucc
    simp only [shareUsersLoop, List.mem_cons] at hr ⊢
    rcases hr with hr | hr
    · subst hr
      obtain ⟨nid, hnid, n2, hn2, hid⟩ :=
        shareOneUser_notif_of_success st m s hrs now u hsucc
      obtain ⟨a2, ha2⟩ := shareUsersLoop_notifs_mono m s false hrs now
        rest (shareOneUser st m s false hrs now u).2
      refine ⟨nid, hnid, n2, ?_, hid⟩
      rw [ha2]
      exact List.mem_append.mpr (Or.inl hn2)
    · exact ih (shareOneUser st m s false hrs now u).2 r hr hsucc

/-- C7 (amended): share-direct batch semantics.  When the request is
accepted, the result list has exactly one entry per input email; every
failed entry carries an error; a failure for one recipient never aborts
the others.  In non-view-once mode every successful entry carries a
`notificationId` that exists in the final store.  In view-once mode the
notifications are created (one view-once notification per successful
recipient, regardless of other recipients failing), but — the
correction — the success entries carry *no* `notificationId` (the route
reads `._id` off the service's plain result object), and no grant of any
kind is written onto the media: the media collection is unchanged. -/
theorem share_direct_batch (st : Store) (mediaId senderId : Nat)
    (emails : List String) (vo : Bool) (hrs : Nat) (now : Time)
    (results : List ShareResult) (stf : Store)
    (h : shareDirect st mediaId senderId emails vo hrs now =
      some (results, stf)) :
    results.length = emails.length
    ∧ (∀ r ∈ results, r.success = false → r.error.isSome)
    ∧ (vo = false → ∀ r ∈ results, r.success = true →
        ∃ nid, r.notificationId = some nid ∧
          ∃ n2 ∈ stf.notifs, n2.id = nid)
    ∧ (vo = true → ∀ r ∈ results, r.success = true →
        r.notificationId = none)
    ∧ (vo = true → stf.vons.length =
        st.vons.length + (results.filter (fun r => r.success)).length)
    ∧ stf.media = st.media := by
  unfold shareDirect at h
  split at h
  · exact absurd h (by simp)
  · split at h
    · exact absurd h (by simp)
    · split at h
      · exact absurd h (by simp)
      · rename_i m hm
        split at h
        · exact absurd h (by simp)
        · simp only [Option.some.injEq, Prod.mk.injEq] at h
          obtain ⟨hres, hstf⟩ := h
          subst hstf
          subst hres
          obtain ⟨hlen, hfailr⟩ := resolveRecipients_spec st.users emails
          refine ⟨?_, ?_, ?_, ?_, ?_, ?_⟩
          · rw [List.length_append,
              shareUsersLoop_length m senderId vo hrs now _ st]
            omega
          · intro r hr hf
            rcases List.mem_append.mp hr with hr | hr
            · exact (hfailr r hr).2
            · exact shareUsersLoop_fail_error m senderId vo hrs now _ st
                r hr hf
          · intro hvo r hr hs
            subst hvo
            rcases List.mem_append.mp hr with hr | hr
            · rw [(hfailr r hr).1] at hs
              simp at hs
            · exact shareUsersLoop_notif_of_success m senderId hrs now _
                st r hr hs
          · intro hvo r hr hs
            subst hvo
            rcases List.mem_append.mp hr with hr | hr
            · rw [(hfailr r hr).1] at hs
              simp at hs
            · exact shareUsersLoop_vo_notifId_none m senderId hrs now _
                st r hr
          · intro hvo
            subst hvo
            have hfilter : (resolveRecipients st.users emails).1.filter
                (fun r => r.success) = [] := by
              rw [List.filter_eq_nil_iff]
              intro r hr
              simp [(hfailr r hr).1]
            rw [List.filter_append, hfilter,
              shareUsersLoop_vons_count m senderId hrs now _ st]
            simp
          · exact shareUsersLoop_media m senderId vo hrs now _ st

/-- C7 counterexample: a view-once batch share to one resolvable and one
unknown email.  The batch semantics hold (two results, one success, one
failure), but the success entry's `notificationId` is `none` and the
media's view-once share list is still empty after the call — the claim
promised a `notificationId` on success and an existing grant for the
successful recipient. -/
theorem share_direct_cex :
    (shareDirect storeC7 5 2 ["bob@x.co", "nosuch@x.co"] true 24 0).map
        (fun p => (p.1.map (fun r => (r.success, r.notificationId)),
                   p.2.media.map (fun m => m.viewOnce.sharedWith))) =
      some ([(false, none), (true, none)], [[]]) := by
  decide

/-- C7 witness: the amended statement at a concrete one-recipient
regular share. -/
theorem share_direct_batch_witness :
    resultsC7w.length = (["bob@x.co"] : List String).length ∧
    storeC7w.media = storeC7.media :=
  let h := share_direct_batch storeC7 5 2 ["bob@x.co"] false 24 0
    resultsC7w storeC7w (by decide)
  ⟨h.1, h.2.2.2.2.2⟩

end MoGallery
